import Mathlib

/- Verification of the scoring, matching, rescaling, local-refinement and
   interruption-handling logic of the POK detector calibration script
   (image-detector/scripts/calibrate.py).

   Numeric conventions of the embedding: pixel coordinates, radii, HSV
   channel values and the match threshold are integers; ratios and scores
   are rationals; positional errors, which involve a square root, live in
   the reals.  The float comparison dist < c performed by the source on
   Euclidean distances is embedded as the integer test
   0 < c and distSq < c^2 on squared distances; the bridging lemma
   distLtInt_correct below proves the two equivalent. -/

namespace PokCalib

/-- Color labels used by annotations and detections. -/
inductive Color
  | red
  | blue
  | unknown
deriving DecidableEq

/-- One ground-truth annotated pok, an entry of the dataset: x, y, color. -/
structure Pok where
  x : ℤ
  y : ℤ
  color : Color
deriving DecidableEq

/-- One detection produced by detect_poks: x, y, radius, color. -/
structure Det where
  x : ℤ
  y : ℤ
  radius : ℤ
  color : Color
deriving DecidableEq

/-- Squared Euclidean distance between an annotation and a detection.
The source computes dist = np.sqrt((det.x - ann.x)**2 + (det.y - ann.y)**2);
only comparisons of this quantity matter, so the embedding keeps squares. -/
def distSq (a : Pok) (d : Det) : ℤ :=
  (d.x - a.x) ^ 2 + (d.y - a.y) ^ 2

/-- Embedding of the float comparison sqrt dsq < c used by the source
(dist < threshold): for a nonnegative dsq it is equivalent to
0 < c and dsq < c^2, see distLtInt_correct. -/
def distLtInt (dsq c : ℤ) : Bool :=
  decide (0 < c) && decide (dsq < c ^ 2)

theorem distSq_nonneg (a : Pok) (d : Det) : 0 ≤ distSq a d :=
  add_nonneg (sq_nonneg _) (sq_nonneg _)

/-- The integer test distLtInt coincides with the real comparison
sqrt dsq < c performed by the source on float distances. -/
theorem distLtInt_correct (dsq c : ℤ) :
    distLtInt dsq c = true ↔ Real.sqrt (dsq : ℝ) < (c : ℝ) := by
  simp only [distLtInt, Bool.and_eq_true, decide_eq_true_eq]
  rcases le_or_lt c 0 with hc | hc
  · constructor
    · rintro ⟨h1, _⟩; exact absurd h1 (not_lt.mpr hc)
    · intro hlt
      exact absurd (lt_of_le_of_lt (Real.sqrt_nonneg _) hlt)
        (not_lt.mpr (by exact_mod_cast hc))
  · have hcR : (0 : ℝ) < (c : ℝ) := by exact_mod_cast hc
    rw [Real.sqrt_lt' hcR]
    constructor
    · rintro ⟨_, h2⟩; exact_mod_cast h2
    · intro h2; exact ⟨hc, by exact_mod_cast h2⟩

/-- Embedding of the float comparison dist < best_dist between two already
computed distances (both are square roots of nonnegative squares). -/
theorem distSq_lt_iff_sqrt_lt (a b : ℤ) (ha : 0 ≤ a) :
    a < b ↔ Real.sqrt (a : ℝ) < Real.sqrt (b : ℝ) := by
  rw [Real.sqrt_lt_sqrt_iff (by exact_mod_cast ha)]
  exact ⟨fun h => by exact_mod_cast h, fun h => by exact_mod_cast h⟩

/-- The source keeps a current best candidate (best_idx, best_dist),
initially (-1, inf); a new distance must be strictly below best_dist.
None plays the role of the initial (-1, inf) pair. -/
def closerThan (dsq : ℤ) : Option (ℕ × Det × ℤ) → Bool
  | none => true
  | some (_, _, bd) => decide (dsq < bd)

/-- Inner loop of the greedy matcher of calculate_score: scan the
unmatched detections in order, keeping the index, detection and squared
distance of the current best candidate; a candidate must be strictly
within the threshold and strictly closer than the current best. -/
def findBestGo (t : ℤ) (ann : Pok) :
    List Det → ℕ → Option (ℕ × Det × ℤ) → Option (ℕ × Det × ℤ)
  | [], _, best => best
  | det :: rest, j, best =>
    if distLtInt (distSq ann det) t && closerThan (distSq ann det) best then
      findBestGo t ann rest (j + 1) (some (j, det, distSq ann det))
    else
      findBestGo t ann rest (j + 1) best

/-- For one annotation, the detection chosen by the greedy scan of
calculate_score (best_idx = -1 becomes none). -/
def findBest (t : ℤ) (ann : Pok) (dets : List Det) : Option (ℕ × Det × ℤ) :=
  findBestGo t ann dets 0 none

/-- One entry of the matched list built by calculate_score.  The source
stores the distance and the color_match boolean; the embedding keeps the
squared distance (the distance is its square root) and additionally the
popped detection itself, which lets the conservation of detections be
stated. -/
structure Matched where
  det : Det
  distSq : ℤ
  colorMatch : Bool
deriving DecidableEq

/-- The greedy matching loop of calculate_score: for each annotation in
input order, find the best unmatched detection (findBest); on success pop
it from the unmatched detections and remove the annotation from the
unmatched annotations.  Returns (matched, unmatched detections,
unmatched annotations). -/
def greedyGo (t : ℤ) :
    List Pok → List Det → List Pok → List Matched × List Det × List Pok
  | [], uds, uas => ([], uds, uas)
  | ann :: rest, uds, uas =>
    match findBest t ann uds with
    | some (j, det, dsq) =>
      let r := greedyGo t rest (uds.eraseIdx j) (uas.erase ann)
      (⟨det, dsq, decide (ann.color = det.color)⟩ :: r.1, r.2)
    | none => greedyGo t rest uds uas

/-- The rational-valued fields of the dict returned by calculate_score.
The fields avg_position_error and combined_score involve a square root
and are therefore defined separately as real numbers below. -/
structure Score where
  precision : ℚ
  «recall» : ℚ
  f1 : ℚ
  color_accuracy : ℚ
  true_positives : ℕ
  false_positives : ℕ
  false_negatives : ℕ
deriving DecidableEq

/-- calculate_score(detections, annotations) of calibrate.py with the
match threshold t: greedy matching followed by the precision / recall /
F1 / color-accuracy computations, each guarded against a zero
denominator. -/
def calculate_score (t : ℤ) (dets : List Det) (anns : List Pok) : Score :=
  let r := greedyGo t anns dets anns
  let tp := r.1.length
  let fp := r.2.1.length
  let fn := r.2.2.length
  let prec : ℚ := if 0 < tp + fp then (tp : ℚ) / ((tp + fp : ℕ) : ℚ) else 0
  let rec_ : ℚ := if 0 < tp + fn then (tp : ℚ) / ((tp + fn : ℕ) : ℚ) else 0
  let f1 : ℚ :=
    if 0 < prec + rec_ then 2 * (prec * rec_) / (prec + rec_) else 0
  let colorCorrect := r.1.countP (·.colorMatch)
  let color_accuracy : ℚ := if 0 < tp then (colorCorrect : ℚ) / (tp : ℚ) else 0
  ⟨prec, rec_, f1, color_accuracy, tp, fp, fn⟩

/-- avg_position_error of calculate_score: the mean of the matched
distances, defaulting to the threshold when nothing matched. -/
noncomputable def avg_position_error (t : ℤ) (dets : List Det) (anns : List Pok) : ℝ :=
  let matched := (greedyGo t anns dets anns).1
  if matched = [] then (t : ℝ)
  else (matched.map (fun m => Real.sqrt (m.distSq : ℝ))).sum / matched.length

/-- combined_score of calculate_score:
(f1 * 50) + (color_accuracy * 40) - (avg_pos_error / threshold * 10). -/
noncomputable def combined_score (t : ℤ) (dets : List Det) (anns : List Pok) : ℝ :=
  ((calculate_score t dets anns).f1 : ℝ) * 50 +
    ((calculate_score t dets anns).color_accuracy : ℝ) * 40 -
    avg_position_error t dets anns / (t : ℝ) * 10

/-- A detection carrying exactly the position and color of an annotation,
as in the identical-inputs property (the scorer never reads the radius). -/
def toDet (p : Pok) : Det :=
  ⟨p.x, p.y, 0, p.color⟩

theorem distLtInt_eq_true (dsq c : ℤ) :
    distLtInt dsq c = true ↔ 0 < c ∧ dsq < c ^ 2 := by
  simp [distLtInt]

theorem distLtInt_eq_false (dsq c : ℤ) :
    distLtInt dsq c = false ↔ ¬(0 < c ∧ dsq < c ^ 2) := by
  rw [← Bool.not_eq_true, distLtInt_eq_true]

/-- Characterization of the best candidate kept by the greedy scan over a
scanned list of detections.  For none, no scanned detection is strictly
within the threshold.  For some (j, det, dsq): index j holds det, dsq is
its squared distance, it is strictly within the threshold, minimal over
the whole scanned list, and strictly below every earlier entry, so that
distance ties are broken toward the first-seen detection. -/
def FBInv (t : ℤ) (ann : Pok) (dets : List Det) : Option (ℕ × Det × ℤ) → Prop
  | none => ∀ d ∈ dets, distLtInt (distSq ann d) t = false
  | some (j, det, dsq) =>
      dets[j]? = some det ∧ dsq = distSq ann det ∧ distLtInt dsq t = true ∧
      (∀ d ∈ dets, dsq ≤ distSq ann d) ∧
      (∀ d ∈ dets.take j, dsq < distSq ann d)

theorem FBInv_extend_keep (t : ℤ) (ann : Pok) (pre : List Det) (d : Det)
    (best : Option (ℕ × Det × ℤ)) (h : FBInv t ann pre best)
    (hc : ¬(distLtInt (distSq ann d) t && closerThan (distSq ann d) best) = true) :
    FBInv t ann (pre ++ [d]) best := by
  cases best with
  | none =>
    intro d' hd'
    rcases List.mem_append.mp hd' with hmem | hmem
    · exact h d' hmem
    · have hdd : d' = d := List.mem_singleton.mp hmem
      subst hdd
      simp only [closerThan, Bool.and_true] at hc
      exact Bool.eq_false_iff.mpr hc
  | some x =>
    obtain ⟨i, det, bd⟩ := x
    obtain ⟨hget, hdsq, hin, hmin, hstrict⟩ := h
    have hi : i < pre.length := by
      rcases List.getElem?_eq_some.mp hget with ⟨hlt, _⟩
      exact hlt
    refine ⟨?_, hdsq, hin, ?_, ?_⟩
    · rw [List.getElem?_append, if_pos hi]
      exact hget
    · intro d' hd'
      rcases List.mem_append.mp hd' with hmem | hmem
      · exact hmin d' hmem
      · have hdd : d' = d := List.mem_singleton.mp hmem
        subst hdd
        simp only [closerThan, Bool.and_eq_true, decide_eq_true_eq, not_and] at hc
        by_cases hw : distLtInt (distSq ann d') t = true
        · exact le_of_not_lt (hc hw)
        · obtain ⟨ht, hbd⟩ := (distLtInt_eq_true bd t).mp hin
          have hf := (distLtInt_eq_false _ t).mp (Bool.eq_false_iff.mpr hw)
          have h2 : t ^ 2 ≤ distSq ann d' := by
            by_contra hlt
            exact hf ⟨ht, lt_of_not_le hlt⟩
          exact le_of_lt (lt_of_lt_of_le hbd h2)
    · intro d' hd'
      have hmem : d' ∈ pre.take i := by
        rwa [List.take_append_of_le_length (le_of_lt hi)] at hd'
      exact hstrict d' hmem

theorem FBInv_extend_new (t : ℤ) (ann : Pok) (pre : List Det) (d : Det)
    (best : Option (ℕ × Det × ℤ)) (h : FBInv t ann pre best)
    (hc : (distLtInt (distSq ann d) t && closerThan (distSq ann d) best) = true) :
    FBInv t ann (pre ++ [d]) (some (pre.length, d, distSq ann d)) := by
  rw [Bool.and_eq_true] at hc
  obtain ⟨hin, hcl⟩ := hc
  have hlt_pre : ∀ d' ∈ pre, distSq ann d < distSq ann d' := by
    intro d' hd'
    cases best with
    | none =>
      obtain ⟨ht, hd2⟩ := (distLtInt_eq_true _ t).mp hin
      have hf := (distLtInt_eq_false _ t).mp (h d' hd')
      have h2 : t ^ 2 ≤ distSq ann d' := by
        by_contra hx
        exact hf ⟨ht, lt_of_not_le hx⟩
      exact lt_of_lt_of_le hd2 h2
    | some x =>
      obtain ⟨i, det, bd⟩ := x
      obtain ⟨_, _, _, hmin, _⟩ := h
      have hdb : distSq ann d < bd := by
        simpa [closerThan] using hcl
      exact lt_of_lt_of_le hdb (hmin d' hd')
  refine ⟨?_, rfl, hin, ?_, ?_⟩
  · rw [List.getElem?_append_right (le_refl pre.length)]
    simp
  · intro d' hd'
    rcases List.mem_append.mp hd' with hmem | hmem
    · exact le_of_lt (hlt_pre d' hmem)
    · have hdd : d' = d := List.mem_singleton.mp hmem
      subst hdd; exact le_refl _
  · intro d' hd'
    rw [List.take_left] at hd'
    exact hlt_pre d' hd'

theorem findBestGo_inv (t : ℤ) (ann : Pok) (rest : List Det) :
    ∀ (pre : List Det) (best : Option (ℕ × Det × ℤ)),
      FBInv t ann pre best →
      FBInv t ann (pre ++ rest) (findBestGo t ann rest pre.length best) := by
  induction rest with
  | nil =>
    intro pre best h
    simpa [findBestGo] using h
  | cons d ds ih =>
    intro pre best h
    rw [List.append_cons, findBestGo]
    by_cases hc : (distLtInt (distSq ann d) t && closerThan (distSq ann d) best) = true
    · rw [if_pos hc]
      have hlen : pre.length + 1 = (pre ++ [d]).length := by simp
      rw [hlen]
      exact ih (pre ++ [d]) _ (FBInv_extend_new t ann pre d best h hc)
    · rw [if_neg hc]
      have hlen : pre.length + 1 = (pre ++ [d]).length := by simp
      rw [hlen]
      exact ih (pre ++ [d]) best (FBInv_extend_keep t ann pre d best h hc)

/-- The chosen detection of findBest satisfies the greedy-selection
characterization FBInv. -/
theorem findBest_inv (t : ℤ) (ann : Pok) (dets : List Det) :
    FBInv t ann dets (findBest t ann dets) := by
  have h := findBestGo_inv t ann dets [] none (by intro d hd; cases hd)
  simpa [findBest] using h

/-- Popping index j of a list is, up to permutation, extracting the
element held there, as the source pop(best_idx) does. -/
theorem perm_cons_eraseIdx (l : List Det) (j : ℕ) (det : Det)
    (h : l[j]? = some det) : List.Perm l (det :: l.eraseIdx j) := by
  rcases List.getElem?_eq_some.mp h with ⟨hj, hget⟩
  have h2 := List.getElem_cons_drop l j hj
  have h3 : l.drop j = det :: l.drop (j + 1) := by
    rw [← h2, hget]
  have h1 : l = l.take j ++ det :: l.drop (j + 1) := by
    rw [← h3, List.take_append_drop]
  rw [List.eraseIdx_eq_take_drop_succ]
  conv_lhs => rw [h1]
  exact List.perm_middle

/-- Conservation of detections through the greedy loop: the popped
(matched) detections followed by the leftover unmatched detections are a
permutation of the input detections, so each detection is paired with at
most one annotation. -/
theorem greedyGo_dets_perm (t : ℤ) :
    ∀ (anns : List Pok) (uds : List Det) (uas : List Pok),
      List.Perm
        ((greedyGo t anns uds uas).1.map (fun m => m.det) ++ (greedyGo t anns uds uas).2.1)
        uds := by
  intro anns
  induction anns with
  | nil => intro uds uas; simp [greedyGo]
  | cons ann rest ih =>
    intro uds uas
    rw [greedyGo]
    cases hfb : findBest t ann uds with
    | none => simpa using ih uds uas
    | some x =>
      obtain ⟨j, det, dsq⟩ := x
      have hinv := findBest_inv t ann uds
      rw [hfb] at hinv
      obtain ⟨hget, -, -, -, -⟩ := hinv
      have hperm := ih (uds.eraseIdx j) (uas.erase ann)
      simp only [List.map_cons, List.cons_append]
      exact ((hperm.cons det).trans (perm_cons_eraseIdx uds j det hget).symm)

/-- Counting of annotations through the greedy loop: when the processed
annotations are contained in the unmatched-annotations list (as they are
at the top call, where both are the full annotation list), each match
removes exactly one entry from it. -/
theorem greedyGo_uas_length (t : ℤ) :
    ∀ (anns : List Pok) (uds : List Det) (uas : List Pok),
      (anns : Multiset Pok) ≤ (uas : Multiset Pok) →
      (greedyGo t anns uds uas).1.length + (greedyGo t anns uds uas).2.2.length =
        uas.length := by
  intro anns
  induction anns with
  | nil => intro uds uas _; simp [greedyGo]
  | cons ann rest ih =>
    intro uds uas hsub
    have hmem : ann ∈ uas := by
      have h1 : ann ∈ (↑(ann :: rest) : Multiset Pok) := by simp
      simpa using Multiset.mem_of_le hsub h1
    rw [greedyGo]
    cases hfb : findBest t ann uds with
    | none =>
      have hsub' : (↑rest : Multiset Pok) ≤ ↑uas := by
        refine le_trans ?_ hsub
        simpa using Multiset.le_cons_self (↑rest : Multiset Pok) ann
      simpa using ih uds uas hsub'
    | some x =>
      obtain ⟨j, det, dsq⟩ := x
      have hsub' : (↑rest : Multiset Pok) ≤ ↑(uas.erase ann) := by
        have h1 := Multiset.erase_le_erase ann hsub
        simpa using h1
      have hlen : (uas.erase ann).length = uas.length - 1 :=
        List.length_erase_of_mem hmem
      have h2 := ih (uds.eraseIdx j) (uas.erase ann) hsub'
      have h3 : 1 ≤ uas.length := List.length_pos.mpr (by rintro rfl; cases hmem)
      simp only [List.length_cons]
      rw [hlen] at h2
      omega

/-- Every matched entry is strictly within the threshold. -/
theorem greedyGo_matched_within (t : ℤ) :
    ∀ (anns : List Pok) (uds : List Det) (uas : List Pok) (m : Matched),
      m ∈ (greedyGo t anns uds uas).1 → 0 < t ∧ m.distSq < t ^ 2 := by
  intro anns
  induction anns with
  | nil => intro uds uas m hm; simp [greedyGo] at hm
  | cons ann rest ih =>
    intro uds uas m hm
    rw [greedyGo] at hm
    cases hfb : findBest t ann uds with
    | none =>
      rw [hfb] at hm
      exact ih uds uas m hm
    | some x =>
      obtain ⟨j, det, dsq⟩ := x
      rw [hfb] at hm
      have hinv := findBest_inv t ann uds
      rw [hfb] at hinv
      obtain ⟨-, -, hin, -, -⟩ := hinv
      rcases List.mem_cons.mp hm with hmh | hmt
      · subst hmh
        exact (distLtInt_eq_true dsq t).mp hin
      · exact ih (uds.eraseIdx j) (uas.erase ann) m hmt

theorem distSq_toDet_self (a : Pok) : distSq a (toDet a) = 0 := by
  simp [distSq, toDet]

/-- When a detection at distance zero heads the unmatched list, the greedy
scan picks it (index 0, squared distance 0). -/
theorem findBest_head_zero (t : ℤ) (ht : 0 < t) (ann : Pok) (d : Det)
    (rest : List Det) (hd : distSq ann d = 0) :
    findBest t ann (d :: rest) = some (0, d, 0) := by
  have hinv := findBest_inv t ann (d :: rest)
  cases hres : findBest t ann (d :: rest) with
  | none =>
    rw [hres] at hinv
    have hfalse := hinv d (List.mem_cons_self _ _)
    rw [distLtInt_eq_false] at hfalse
    exact absurd ⟨ht, by rw [hd]; positivity⟩ hfalse
  | some x =>
    obtain ⟨j, det, dsq⟩ := x
    rw [hres] at hinv
    obtain ⟨hget, hdsq, hin, hmin, hstrict⟩ := hinv
    have h0 : dsq ≤ 0 := hd ▸ hmin d (List.mem_cons_self _ _)
    have h1 : 0 ≤ dsq := hdsq.symm ▸ distSq_nonneg ann det
    have hdsq0 : dsq = 0 := le_antisymm h0 h1
    have hj : j = 0 := by
      by_contra hne
      have hmem : d ∈ (d :: rest).take j := by
        cases j with
        | zero => exact absurd rfl hne
        | succ n => simp [List.take_cons]
      have hlt := hstrict d hmem
      rw [hd] at hlt
      omega
    subst hj
    have hdet : det = d := by
      rw [List.getElem?_cons_zero] at hget
      exact (Option.some.injEq _ _ ▸ hget).symm
    rw [hdet, hdsq0]

/-- Erasing, in order, every element of a list from that same list leaves
nothing: the unmatched-annotation list of a perfect matching is empty. -/
theorem foldl_erase_self :
    ∀ (l : List Pok), l.foldl (fun u a => u.erase a) l = [] := by
  intro l
  induction l with
  | nil => rfl
  | cons a rest ih =>
    have h1 : (a :: rest).erase a = rest := List.erase_cons_head a rest
    calc (a :: rest).foldl (fun u a => u.erase a) (a :: rest)
        = rest.foldl (fun u a => u.erase a) ((a :: rest).erase a) := rfl
      _ = rest.foldl (fun u a => u.erase a) rest := by rw [h1]
      _ = [] := ih

/-- On a detection list identical to the annotation list the greedy loop
matches every annotation to its own copy, in order, with distance 0 and a
color match, leaving no unmatched detection and no unmatched
annotation. -/
theorem greedyGo_identical (t : ℤ) (ht : 0 < t) :
    ∀ (anns uas : List Pok),
      greedyGo t anns (anns.map toDet) uas =
        (anns.map (fun a => ⟨toDet a, 0, true⟩), [],
          anns.foldl (fun u a => u.erase a) uas) := by
  intro anns
  induction anns with
  | nil => intro uas; simp [greedyGo]
  | cons ann rest ih =>
    intro uas
    have hfb : findBest t ann (toDet ann :: rest.map toDet) = some (0, toDet ann, 0) :=
      findBest_head_zero t ht ann (toDet ann) (rest.map toDet) (distSq_toDet_self ann)
    rw [List.map_cons, greedyGo, hfb]
    simp only [List.eraseIdx_cons_zero, List.foldl_cons, List.erase_cons_head]
    rw [ih (uas.erase ann)]
    simp [toDet]

theorem calculate_score_identical (t : ℤ) (ht : 0 < t) (anns : List Pok)
    (hne : anns ≠ []) :
    calculate_score t (anns.map toDet) anns = ⟨1, 1, 1, 1, anns.length, 0, 0⟩ := by
  have hg := greedyGo_identical t ht anns anns
  have hpos : 0 < anns.length := List.length_pos.mpr hne
  have hQ : ((anns.length : ℚ)) ≠ 0 := by
    exact_mod_cast Nat.pos_iff_ne_zero.mp hpos
  unfold calculate_score
  rw [hg, foldl_erase_self]
  have hcp :
      List.countP
        ((fun x => x.colorMatch) ∘ fun a => (⟨toDet a, 0, true⟩ : Matched)) anns =
        anns.length := by
    rw [List.countP_eq_length]
    intro a _
    rfl
  simp [hpos, div_self hQ, List.countP_map, hcp]
  norm_num

theorem avg_position_error_identical (t : ℤ) (ht : 0 < t) (anns : List Pok)
    (hne : anns ≠ []) :
    avg_position_error t (anns.map toDet) anns = 0 := by
  have hg := greedyGo_identical t ht anns anns
  unfold avg_position_error
  rw [hg]
  have hmne : anns.map (fun a => (⟨toDet a, 0, true⟩ : Matched)) ≠ [] := by
    simpa using hne
  simp only []
  rw [if_neg hmne]
  have hsum :
      ((anns.map fun a => (⟨toDet a, 0, true⟩ : Matched)).map
        fun m => Real.sqrt ((m.distSq : ℝ))).sum = 0 := by
    apply List.sum_eq_zero
    intro x hx
    rw [List.map_map, List.mem_map] at hx
    obtain ⟨a, -, rfl⟩ := hx
    simp
  rw [hsum, zero_div]

/-- Claim C1 counterexample: with threshold 50 and the empty annotation
list, whose identical detection list is also empty, the scorer returns
precision 0 rather than 1 and combined score -10 rather than 90, so the
claim fails when it quantifies over every annotation list. -/
theorem identical_detections_empty_cex :
    (calculate_score 50 (List.map toDet []) []).precision ≠ 1 ∧
    combined_score 50 (List.map toDet []) [] = -10 := by
  constructor
  · have h : (calculate_score 50 (List.map toDet []) []).precision = 0 := rfl
    rw [h]; norm_num
  · have h1 : (calculate_score 50 (List.map toDet []) []).f1 = 0 := by
      norm_num [calculate_score, greedyGo]
    have h2 : (calculate_score 50 (List.map toDet []) []).color_accuracy = 0 := rfl
    have h3 : avg_position_error 50 (List.map toDet []) [] = (50 : ℝ) := by
      unfold avg_position_error
      simp [greedyGo]
    unfold combined_score
    rw [h1, h2, h3]
    norm_num

/-- Claim C1 (amended: the annotation list must be non-empty).  For every
matchThreshold > 0 and every non-empty annotation list, a detection list
identical to the annotations (same positions and colors) scores
precision = recall = F1 = 1, color accuracy = 1 and combined score 90,
the combined score being 50*F1 + 40*colorAccuracy
- 10*(meanPositionalError/matchThreshold). -/
theorem identical_detections_score (t : ℤ) (ht : 0 < t) (anns : List Pok)
    (hne : anns ≠ []) :
    (calculate_score t (anns.map toDet) anns).precision = 1 ∧
    (calculate_score t (anns.map toDet) anns).«recall» = 1 ∧
    (calculate_score t (anns.map toDet) anns).f1 = 1 ∧
    (calculate_score t (anns.map toDet) anns).color_accuracy = 1 ∧
    combined_score t (anns.map toDet) anns = 90 ∧
    (∀ dets : List Det,
      combined_score t dets anns =
        ((calculate_score t dets anns).f1 : ℝ) * 50 +
          ((calculate_score t dets anns).color_accuracy : ℝ) * 40 -
          avg_position_error t dets anns / (t : ℝ) * 10) := by
  have hs := calculate_score_identical t ht anns hne
  have ha := avg_position_error_identical t ht anns hne
  refine ⟨by rw [hs], by rw [hs], by rw [hs], by rw [hs], ?_, fun dets => rfl⟩
  unfold combined_score
  rw [hs, ha]
  push_cast
  norm_num

/-- Witness for identical_detections_score at threshold 50 and a single
red annotation at the origin. -/
theorem identical_detections_score_witness :
    (calculate_score 50 ([(⟨0, 0, Color.red⟩ : Pok)].map toDet)
        [⟨0, 0, Color.red⟩]).precision = 1 ∧
    (calculate_score 50 ([(⟨0, 0, Color.red⟩ : Pok)].map toDet)
        [⟨0, 0, Color.red⟩]).«recall» = 1 ∧
    (calculate_score 50 ([(⟨0, 0, Color.red⟩ : Pok)].map toDet)
        [⟨0, 0, Color.red⟩]).f1 = 1 ∧
    (calculate_score 50 ([(⟨0, 0, Color.red⟩ : Pok)].map toDet)
        [⟨0, 0, Color.red⟩]).color_accuracy = 1 ∧
    combined_score 50 ([(⟨0, 0, Color.red⟩ : Pok)].map toDet)
      [⟨0, 0, Color.red⟩] = 90 ∧
    (∀ dets : List Det,
      combined_score 50 dets [⟨0, 0, Color.red⟩] =
        ((calculate_score 50 dets [⟨0, 0, Color.red⟩]).f1 : ℝ) * 50 +
          ((calculate_score 50 dets [⟨0, 0, Color.red⟩]).color_accuracy : ℝ) * 40 -
          avg_position_error 50 dets [⟨0, 0, Color.red⟩] / ((50 : ℤ) : ℝ) * 10) :=
  identical_detections_score 50 (by decide) [⟨0, 0, Color.red⟩] (by decide)

theorem greedyGo_nil_dets (t : ℤ) :
    ∀ (anns uas : List Pok), greedyGo t anns [] uas = ([], [], uas) := by
  intro anns
  induction anns with
  | nil => intro uas; rfl
  | cons ann rest ih =>
    intro uas
    rw [greedyGo]
    have hfb : findBest t ann [] = none := rfl
    rw [hfb]
    exact ih uas

/-- Claim C2: the matching of calculate_score is greedy and
annotation-order-driven.  For each annotation, the chosen detection is
strictly within the threshold, has minimal distance among the remaining
unmatched detections, and beats every earlier-listed detection strictly,
so distance ties go to the first-seen (lowest-index) one; when no
detection qualifies, none is chosen.  Unpaired annotations are the
false negatives and leftover detections the false positives, and the
assignment is a function of the input, hence reproducible. -/
theorem greedy_matching_characterization :
    (∀ (t : ℤ) (ann : Pok) (dets : List Det) (j : ℕ) (det : Det) (dsq : ℤ),
      findBest t ann dets = some (j, det, dsq) →
        dets[j]? = some det ∧ dsq = distSq ann det ∧ (0 < t ∧ dsq < t ^ 2) ∧
        (∀ d ∈ dets, dsq ≤ distSq ann d) ∧
        (∀ d ∈ dets.take j, dsq < distSq ann d)) ∧
    (∀ (t : ℤ) (ann : Pok) (dets : List Det),
      findBest t ann dets = none → ∀ d ∈ dets, ¬(0 < t ∧ distSq ann d < t ^ 2)) ∧
    (∀ (t : ℤ) (anns : List Pok) (dets : List Det),
      (calculate_score t dets anns).false_negatives =
        (greedyGo t anns dets anns).2.2.length ∧
      (calculate_score t dets anns).false_positives =
        (greedyGo t anns dets anns).2.1.length) ∧
    (∀ (t : ℤ) (anns : List Pok) (dets : List Det),
      greedyGo t anns dets anns = greedyGo t anns dets anns) := by
  refine ⟨?_, ?_, ?_, fun t anns dets => rfl⟩
  · intro t ann dets j det dsq hfb
    have hinv := findBest_inv t ann dets
    rw [hfb] at hinv
    obtain ⟨hget, hdsq, hin, hmin, hstrict⟩ := hinv
    exact ⟨hget, hdsq, (distLtInt_eq_true dsq t).mp hin, hmin, hstrict⟩
  · intro t ann dets hfb d hd
    have hinv := findBest_inv t ann dets
    rw [hfb] at hinv
    exact (distLtInt_eq_false _ t).mp (hinv d hd)
  · intro t anns dets
    exact ⟨rfl, rfl⟩

/-- Witness for greedy_matching_characterization: an annotation at the
origin with two detections at tied distance 5 picks index 0, and a far
detection yields no match. -/
theorem greedy_matching_witness :
    (([(⟨3, 4, 0, Color.red⟩ : Det), ⟨3, 4, 0, Color.blue⟩])[0]? =
        some ⟨3, 4, 0, Color.red⟩ ∧
      (25 : ℤ) = distSq ⟨0, 0, Color.red⟩ ⟨3, 4, 0, Color.red⟩ ∧
      ((0 : ℤ) < 50 ∧ (25 : ℤ) < 50 ^ 2) ∧
      (∀ d ∈ [(⟨3, 4, 0, Color.red⟩ : Det), ⟨3, 4, 0, Color.blue⟩],
        (25 : ℤ) ≤ distSq ⟨0, 0, Color.red⟩ d) ∧
      (∀ d ∈ ([(⟨3, 4, 0, Color.red⟩ : Det), ⟨3, 4, 0, Color.blue⟩].take 0),
        (25 : ℤ) < distSq ⟨0, 0, Color.red⟩ d)) ∧
    (∀ d ∈ [(⟨300, 400, 0, Color.red⟩ : Det)],
      ¬((0 : ℤ) < 50 ∧ distSq ⟨0, 0, Color.red⟩ d < 50 ^ 2)) :=
  ⟨greedy_matching_characterization.1 50 ⟨0, 0, Color.red⟩
      [⟨3, 4, 0, Color.red⟩, ⟨3, 4, 0, Color.blue⟩] 0 ⟨3, 4, 0, Color.red⟩ 25
      (by decide),
    greedy_matching_characterization.2.1 50 ⟨0, 0, Color.red⟩
      [⟨300, 400, 0, Color.red⟩] (by decide)⟩

/-- Claim C6: the scorer is total on degenerate inputs and returns
zero-valued metrics: no detections against N > 0 annotations gives
F1 = 0, N false negatives and 0 true positives; no annotations against
M > 0 detections gives M false positives, recall 0 and precision 0. -/
theorem degenerate_inputs_score :
    (∀ (t : ℤ) (anns : List Pok), 0 < anns.length →
      (calculate_score t [] anns).f1 = 0 ∧
      (calculate_score t [] anns).false_negatives = anns.length ∧
      (calculate_score t [] anns).true_positives = 0) ∧
    (∀ (t : ℤ) (dets : List Det), 0 < dets.length →
      (calculate_score t dets []).false_positives = dets.length ∧
      (calculate_score t dets []).«recall» = 0 ∧
      (calculate_score t dets []).precision = 0) := by
  constructor
  · intro t anns _
    have hg := greedyGo_nil_dets t anns anns
    refine ⟨?_, ?_, ?_⟩
    · unfold calculate_score
      rw [hg]
      simp [zero_div]
    · show (greedyGo t anns [] anns).2.2.length = anns.length
      rw [hg]
    · show (greedyGo t anns [] anns).1.length = 0
      rw [hg]
      rfl
  · intro t dets _
    have hg : greedyGo t [] dets [] = ([], dets, []) := rfl
    refine ⟨rfl, rfl, ?_⟩
    unfold calculate_score
    rw [hg]
    simp [zero_div]

/-- Witness for degenerate_inputs_score at threshold 50 with one
annotation (first part) and one detection (second part). -/
theorem degenerate_inputs_score_witness :
    ((calculate_score 50 [] [(⟨0, 0, Color.red⟩ : Pok)]).f1 = 0 ∧
      (calculate_score 50 [] [(⟨0, 0, Color.red⟩ : Pok)]).false_negatives = 1 ∧
      (calculate_score 50 [] [(⟨0, 0, Color.red⟩ : Pok)]).true_positives = 0) ∧
    ((calculate_score 50 [(⟨1, 2, 3, Color.blue⟩ : Det)] []).false_positives = 1 ∧
      (calculate_score 50 [(⟨1, 2, 3, Color.blue⟩ : Det)] []).«recall» = 0 ∧
      (calculate_score 50 [(⟨1, 2, 3, Color.blue⟩ : Det)] []).precision = 0) := by
  constructor
  · have h := degenerate_inputs_score.1 50 [⟨0, 0, Color.red⟩] (by decide)
    simpa using h
  · have h := degenerate_inputs_score.2 50 [⟨1, 2, 3, Color.blue⟩] (by decide)
    simpa using h

/-- Claim C9: counting invariant of the scorer.  True positives plus
false negatives equal the number of annotations, true positives plus
false positives equal the number of detections, and the matched
detections together with the leftover detections are a permutation of
the input detections, so each detection is paired at most once. -/
theorem scorer_counting_invariant (t : ℤ) (dets : List Det) (anns : List Pok) :
    (calculate_score t dets anns).true_positives +
        (calculate_score t dets anns).false_negatives = anns.length ∧
    (calculate_score t dets anns).true_positives +
        (calculate_score t dets anns).false_positives = dets.length ∧
    List.Perm
      ((greedyGo t anns dets anns).1.map (fun m => m.det) ++
        (greedyGo t anns dets anns).2.1) dets := by
  have hperm := greedyGo_dets_perm t anns dets anns
  have huas := greedyGo_uas_length t anns dets anns (le_refl _)
  refine ⟨huas, ?_, hperm⟩
  have hlen := hperm.length_eq
  simpa using hlen

/-- Claim C10: the match distance test is strictly exclusive at the
boundary.  Every matched pair lies strictly inside the threshold, and a
single detection at Euclidean distance exactly the threshold from a
single annotation (squared distance equal to the squared threshold) is
never matched: the annotation becomes a false negative and the detection
a false positive. -/
theorem threshold_boundary_exclusive :
    (∀ (t : ℤ) (dets : List Det) (anns : List Pok) (m : Matched),
      m ∈ (greedyGo t anns dets anns).1 → m.distSq < t ^ 2) ∧
    (∀ (t : ℤ) (ann : Pok) (det : Det), 0 < t → distSq ann det = t ^ 2 →
      (calculate_score t [det] [ann]).true_positives = 0 ∧
      (calculate_score t [det] [ann]).false_negatives = 1 ∧
      (calculate_score t [det] [ann]).false_positives = 1) := by
  constructor
  · intro t dets anns m hm
    exact (greedyGo_matched_within t anns dets anns m hm).2
  · intro t ann det ht heq
    have hdl : distLtInt (distSq ann det) t = false := by
      rw [distLtInt_eq_false]
      rintro ⟨-, hlt⟩
      rw [heq] at hlt
      exact lt_irrefl _ hlt
    have hfb : findBest t ann [det] = none := by
      show findBestGo t ann [det] 0 none = none
      rw [findBestGo, hdl]
      simp [findBestGo]
    have hg : greedyGo t [ann] [det] [ann] = ([], [det], [ann]) := by
      rw [greedyGo, hfb]
      rfl
    refine ⟨?_, ?_, ?_⟩
    · show (greedyGo t [ann] [det] [ann]).1.length = 0
      rw [hg]
      rfl
    · show (greedyGo t [ann] [det] [ann]).2.2.length = 1
      rw [hg]
      rfl
    · show (greedyGo t [ann] [det] [ann]).2.1.length = 1
      rw [hg]
      rfl

/-- Witness for threshold_boundary_exclusive: a matched pair at distance
5 < 50 satisfies the strict bound, and a pair at distance exactly 50
yields a false negative and a false positive. -/
theorem threshold_boundary_exclusive_witness :
    ((⟨⟨3, 4, 0, Color.red⟩, 25, true⟩ : Matched).distSq < (50 : ℤ) ^ 2) ∧
    ((calculate_score 50 [(⟨30, 40, 0, Color.red⟩ : Det)]
        [(⟨0, 0, Color.red⟩ : Pok)]).true_positives = 0 ∧
      (calculate_score 50 [(⟨30, 40, 0, Color.red⟩ : Det)]
        [(⟨0, 0, Color.red⟩ : Pok)]).false_negatives = 1 ∧
      (calculate_score 50 [(⟨30, 40, 0, Color.red⟩ : Det)]
        [(⟨0, 0, Color.red⟩ : Pok)]).false_positives = 1) :=
  ⟨threshold_boundary_exclusive.1 50 [⟨3, 4, 0, Color.red⟩] [⟨0, 0, Color.red⟩]
      ⟨⟨3, 4, 0, Color.red⟩, 25, true⟩ (by decide),
    threshold_boundary_exclusive.2 50 ⟨0, 0, Color.red⟩ ⟨30, 40, 0, Color.red⟩
      (by decide) (by decide)⟩

/-- State of the local hill-climbing refinement loop of optimize:
current point and score, the consecutive non-improvement counter, the
improvement counter, the best-known point and score, and whether the
Local Search marker has been appended to the source label (the source
appends the marker string at most once; the embedding keeps the
boolean). -/
structure RefineState (α : Type) where
  currentParams : α
  currentScore : ℚ
  noImprovementCount : ℕ
  improvements : ℕ
  bestParams : α
  bestScore : ℚ
  localSearchMarked : Bool
deriving DecidableEq

/-- One iteration of the refinement loop of optimize.  The two random
calls to neighbor_params are abstracted as the deterministic families
propose (the neighbor generated at the top of iteration i) and jump (the
fresh perturbation drawn in the escape branch); evalFn stands for the
deterministic evaluation of a parameter set on the training set. -/
def refineStep {α : Type} (propose jump : ℕ → α → α) (evalFn : α → ℚ)
    (i : ℕ) (s : RefineState α) : RefineState α :=
  let neighbor := propose i s.currentParams
  let score := evalFn neighbor
  if s.currentScore < score then
    let s1 : RefineState α :=
      { s with currentScore := score, currentParams := neighbor,
               noImprovementCount := 0, improvements := s.improvements + 1 }
    if s.bestScore < score then
      { s1 with bestScore := score, bestParams := neighbor,
                localSearchMarked := true }
    else s1
  else
    let n := s.noImprovementCount + 1
    if 10 < n then
      { s with currentParams := jump i s.bestParams,
               currentScore := s.bestScore,
               noImprovementCount := 0 }
    else
      { s with noImprovementCount := n }

/-- The refinement loop of optimize: local_iterations iterations of
refineStep, indexed in order. -/
def refineLoop {α : Type} (propose jump : ℕ → α → α) (evalFn : α → ℚ)
    (n : ℕ) (s0 : RefineState α) : RefineState α :=
  (List.range n).foldl (fun s i => refineStep propose jump evalFn i s) s0

theorem refineStep_bestScore_mono {α : Type} (propose jump : ℕ → α → α)
    (evalFn : α → ℚ) (i : ℕ) (s : RefineState α) :
    s.bestScore ≤ (refineStep propose jump evalFn i s).bestScore := by
  simp only [refineStep]
  split_ifs with h1 h2
  · exact le_of_lt h2
  · exact le_refl _
  · exact le_refl _
  · exact le_refl _

theorem refineLoop_bestScore_mono {α : Type} (propose jump : ℕ → α → α)
    (evalFn : α → ℚ) (n : ℕ) (s0 : RefineState α) :
    s0.bestScore ≤ (refineLoop propose jump evalFn n s0).bestScore := by
  induction n with
  | zero => exact le_refl _
  | succ n ih =>
    have hstep : refineLoop propose jump evalFn (n + 1) s0 =
        refineStep propose jump evalFn n (refineLoop propose jump evalFn n s0) := by
      unfold refineLoop
      rw [List.range_succ, List.foldl_append]
      rfl
    rw [hstep]
    exact le_trans ih (refineStep_bestScore_mono propose jump evalFn n _)

/-- Claim C7: local refinement never regresses.  The best score after any
number of iterations is at least the initial best score, and the
evaluated candidate point is adopted as the current point exactly on
strict improvement: otherwise the current point and score are unchanged,
except in the escape branch, which moves to a fresh perturbation of the
best point with the current score reset to the best score (never to the
score of the rejected candidate). -/
theorem refinement_never_regresses {α : Type} (propose jump : ℕ → α → α)
    (evalFn : α → ℚ) (n : ℕ) (s0 : RefineState α) :
    s0.bestScore ≤ (refineLoop propose jump evalFn n s0).bestScore ∧
    (∀ (i : ℕ) (s : RefineState α),
      (s.currentScore < evalFn (propose i s.currentParams) →
        (refineStep propose jump evalFn i s).currentParams =
            propose i s.currentParams ∧
        (refineStep propose jump evalFn i s).currentScore =
            evalFn (propose i s.currentParams)) ∧
      (¬ s.currentScore < evalFn (propose i s.currentParams) →
        ((refineStep propose jump evalFn i s).currentParams = s.currentParams ∧
          (refineStep propose jump evalFn i s).currentScore = s.currentScore) ∨
        ((refineStep propose jump evalFn i s).currentParams =
            jump i s.bestParams ∧
          (refineStep propose jump evalFn i s).currentScore = s.bestScore))) := by
  refine ⟨refineLoop_bestScore_mono propose jump evalFn n s0, ?_⟩
  intro i s
  constructor
  · intro himp
    simp only [refineStep]
    rw [if_pos himp]
    split_ifs <;> exact ⟨rfl, rfl⟩
  · intro hni
    simp only [refineStep]
    rw [if_neg hni]
    split_ifs
    · exact Or.inr ⟨rfl, rfl⟩
    · exact Or.inl ⟨rfl, rfl⟩

/-- Concrete data for the refinement theorems: neighbors shift by one,
evaluation is constant. -/
def stepFn : ℕ → ℤ → ℤ := fun _ p => p + 1

def evalTen : ℤ → ℚ := fun _ => 10

def evalZero : ℤ → ℚ := fun _ => 0

def stateA : RefineState ℤ := ⟨0, 5, 0, 0, 100, 7, false⟩

/-- Witness for refinement_never_regresses: an improving step adopts the
candidate, and the loop keeps the best score. -/
theorem refinement_never_regresses_witness :
    ((refineStep stepFn stepFn evalTen 0 stateA).currentParams =
        stepFn 0 stateA.currentParams ∧
      (refineStep stepFn stepFn evalTen 0 stateA).currentScore =
        evalTen (stepFn 0 stateA.currentParams)) ∧
    stateA.bestScore ≤ (refineLoop stepFn stepFn evalTen 3 stateA).bestScore :=
  ⟨((refinement_never_regresses stepFn stepFn evalTen 3 stateA).2 0 stateA).1
      (by decide),
    (refinement_never_regresses stepFn stepFn evalTen 3 stateA).1⟩

/-- Claim C5 counterexample: starting from a fresh state (counter 0) with
current score 5 and best score 7, ten consecutive non-improving
iterations leave the current point and score at the stuck values, with
the counter at 10 and no reset performed, contradicting a reset after
exactly 10 non-improving iterations. -/
theorem refinement_reset_after_ten_cex :
    (refineLoop stepFn stepFn evalZero 10 stateA).noImprovementCount = 10 ∧
    (refineLoop stepFn stepFn evalZero 10 stateA).currentParams = 0 ∧
    (refineLoop stepFn stepFn evalZero 10 stateA).currentScore = 5 ∧
    (refineLoop stepFn stepFn evalZero 10 stateA).currentScore ≠
      stateA.bestScore := by
  refine ⟨rfl, rfl, rfl, ?_⟩
  intro h
  have h5 : (5 : ℚ) = 7 := h
  norm_num at h5

/-- Claim C5 (amended: the escape fires on the eleventh consecutive
non-improving iteration, when the counter, incremented past 10, exceeds
the threshold).  On a non-improving iteration: with fewer than 10 prior
consecutive non-improvements only the counter is incremented, while with
10 or more the current point is reset to a fresh perturbation of the
best-known point, the current score to the best score, and the counter
to 0. -/
theorem refinement_reset_after_eleven {α : Type} (propose jump : ℕ → α → α)
    (evalFn : α → ℚ) (i : ℕ) (s : RefineState α)
    (hni : ¬ s.currentScore < evalFn (propose i s.currentParams)) :
    (s.noImprovementCount < 10 →
      refineStep propose jump evalFn i s =
        { s with noImprovementCount := s.noImprovementCount + 1 }) ∧
    (10 ≤ s.noImprovementCount →
      refineStep propose jump evalFn i s =
        { s with currentParams := jump i s.bestParams,
                 currentScore := s.bestScore,
                 noImprovementCount := 0 }) := by
  constructor
  · intro hlt
    simp only [refineStep]
    rw [if_neg hni, if_neg (show ¬ 10 < s.noImprovementCount + 1 by omega)]
  · intro hge
    simp only [refineStep]
    rw [if_neg hni, if_pos (show 10 < s.noImprovementCount + 1 by omega)]

/-- Second concrete state, already at 10 consecutive non-improvements. -/
def stateB : RefineState ℤ := ⟨0, 5, 10, 0, 100, 7, false⟩

/-- Witness for refinement_reset_after_eleven: at counter 0 the step only
increments the counter; at counter 10 it resets to a perturbation of the
best point. -/
theorem refinement_reset_after_eleven_witness :
    refineStep stepFn stepFn evalZero 0 stateA =
      { stateA with noImprovementCount := stateA.noImprovementCount + 1 } ∧
    refineStep stepFn stepFn evalZero 0 stateB =
      { stateB with currentParams := stepFn 0 stateB.bestParams,
                    currentScore := stateB.bestScore,
                    noImprovementCount := 0 } :=
  ⟨(refinement_reset_after_eleven stepFn stepFn evalZero 0 stateA
        (by decide)).1 (by decide),
    (refinement_reset_after_eleven stepFn stepFn evalZero 0 stateB
        (by decide)).2 (by decide)⟩

/-- The detector parameter record (models.py DetectorParams, minus the
constant algorithm tag): dp is continuous, every other field integer. -/
structure Params where
  dp : ℚ
  minDist : ℤ
  param1 : ℤ
  param2 : ℤ
  minRadius : ℤ
  maxRadius : ℤ
  redH1Low : ℤ
  redH1High : ℤ
  redH2Low : ℤ
  redH2High : ℤ
  redSMin : ℤ
  redVMin : ℤ
  blueH1Low : ℤ
  blueH1High : ℤ
  blueH2Low : ℤ
  blueH2High : ℤ
  blueSMin : ℤ
  blueVMin : ℤ
deriving DecidableEq

/-- The Python int() conversion applied by optimize to the rescaled
spatial parameters: truncation toward zero. -/
def pyInt (q : ℚ) : ℤ :=
  if 0 ≤ q then ⌊q⌋ else ⌈q⌉

/-- np.mean of the per-image scale factors of the training partition. -/
def meanScale (scales : List ℚ) : ℚ :=
  scales.sum / (scales.length : ℚ)

/-- The rescaling step at the end of optimize: divide minDist, minRadius
and maxRadius by the average training scale and convert with int();
every other field is copied unchanged. -/
def rescaleParams (p : Params) (scales : List ℚ) : Params :=
  let avg := meanScale scales
  { p with
    minDist := pyInt ((p.minDist : ℚ) / avg),
    minRadius := pyInt ((p.minRadius : ℚ) / avg),
    maxRadius := pyInt ((p.maxRadius : ℚ) / avg) }

theorem pyInt_intCast (x : ℤ) : pyInt (x : ℚ) = x := by
  unfold pyInt
  split_ifs <;> simp

theorem sum_of_ones (l : List ℚ) (h : ∀ x ∈ l, x = 1) :
    l.sum = (l.length : ℚ) := by
  induction l with
  | nil => simp
  | cons a rest ih =>
    have ha : a = 1 := h a (List.mem_cons_self a rest)
    have hrest : ∀ x ∈ rest, x = 1 := fun x hx => h x (List.mem_cons_of_mem a hx)
    simp only [List.sum_cons, List.length_cons, ha, ih hrest]
    push_cast
    ring

/-- Concrete parameter record used by the rescaling counterexample. -/
def paramsA : Params :=
  ⟨1, 5, 100, 30, 10, 50, 0, 10, 160, 180, 100, 100, 100, 130, 0, 0, 100, 100⟩

/-- Claim C3 counterexample: with minDist 5 and a single scale factor 2
the source computes int(5 / 2) = int(2.5) = 2, while rounding 2.5 to the
nearest integer gives 3. -/
theorem rescale_round_cex :
    (rescaleParams paramsA [2]).minDist ≠
      round ((paramsA.minDist : ℚ) / meanScale [2]) := by
  have h0 : (rescaleParams paramsA [2]).minDist =
      pyInt ((paramsA.minDist : ℚ) / meanScale [2]) := rfl
  have h1 : meanScale [2] = 2 := by norm_num [meanScale]
  have h2 : ((paramsA.minDist : ℚ)) = 5 := by norm_num [paramsA]
  rw [h0, h1, h2]
  rw [show pyInt ((5 : ℚ) / 2) = 2 from by norm_num [pyInt]]
  rw [show round ((5 : ℚ) / 2) = 3 from by norm_num [round_eq]]
  decide

/-- Claim C3 (amended: the spatial fields are converted with Python
int(), which truncates toward zero, not with round-to-nearest).  The
rescaler divides minDist, minRadius and maxRadius by the mean scale and
truncates, leaves dp, param1, param2 and every hue/saturation/value
field unchanged, and is the identity when every scale factor is 1. -/
theorem rescale_truncates (p : Params) (scales : List ℚ) (hne : scales ≠ []) :
    (rescaleParams p scales).minDist = pyInt ((p.minDist : ℚ) / meanScale scales) ∧
    (rescaleParams p scales).minRadius = pyInt ((p.minRadius : ℚ) / meanScale scales) ∧
    (rescaleParams p scales).maxRadius = pyInt ((p.maxRadius : ℚ) / meanScale scales) ∧
    (rescaleParams p scales).dp = p.dp ∧
    (rescaleParams p scales).param1 = p.param1 ∧
    (rescaleParams p scales).param2 = p.param2 ∧
    (rescaleParams p scales).redH1Low = p.redH1Low ∧
    (rescaleParams p scales).redH1High = p.redH1High ∧
    (rescaleParams p scales).redH2Low = p.redH2Low ∧
    (rescaleParams p scales).redH2High = p.redH2High ∧
    (rescaleParams p scales).redSMin = p.redSMin ∧
    (rescaleParams p scales).redVMin = p.redVMin ∧
    (rescaleParams p scales).blueH1Low = p.blueH1Low ∧
    (rescaleParams p scales).blueH1High = p.blueH1High ∧
    (rescaleParams p scales).blueH2Low = p.blueH2Low ∧
    (rescaleParams p scales).blueH2High = p.blueH2High ∧
    (rescaleParams p scales).blueSMin = p.blueSMin ∧
    (rescaleParams p scales).blueVMin = p.blueVMin ∧
    ((∀ sc ∈ scales, sc = 1) → rescaleParams p scales = p) := by
  refine ⟨rfl, rfl, rfl, rfl, rfl, rfl, rfl, rfl, rfl, rfl, rfl, rfl, rfl,
    rfl, rfl, rfl, rfl, rfl, ?_⟩
  intro hall
  have hlen : (scales.length : ℚ) ≠ 0 := by
    have hz : scales.length ≠ 0 := fun h => hne (List.length_eq_zero.mp h)
    exact_mod_cast hz
  have hsum : scales.sum = (scales.length : ℚ) := sum_of_ones scales hall
  have hmean : meanScale scales = 1 := by
    unfold meanScale
    rw [hsum, div_self hlen]
  unfold rescaleParams
  rw [hmean]
  simp [pyInt_intCast]

/-- Witness for rescale_truncates at a concrete record and scale list. -/
theorem rescale_truncates_witness :
    (rescaleParams paramsA [1, 1]).minDist =
      pyInt ((paramsA.minDist : ℚ) / meanScale [1, 1]) ∧
    (rescaleParams paramsA [1, 1]).minRadius =
      pyInt ((paramsA.minRadius : ℚ) / meanScale [1, 1]) ∧
    (rescaleParams paramsA [1, 1]).maxRadius =
      pyInt ((paramsA.maxRadius : ℚ) / meanScale [1, 1]) ∧
    (rescaleParams paramsA [1, 1]).dp = paramsA.dp ∧
    (rescaleParams paramsA [1, 1]).param1 = paramsA.param1 ∧
    (rescaleParams paramsA [1, 1]).param2 = paramsA.param2 ∧
    (rescaleParams paramsA [1, 1]).redH1Low = paramsA.redH1Low ∧
    (rescaleParams paramsA [1, 1]).redH1High = paramsA.redH1High ∧
    (rescaleParams paramsA [1, 1]).redH2Low = paramsA.redH2Low ∧
    (rescaleParams paramsA [1, 1]).redH2High = paramsA.redH2High ∧
    (rescaleParams paramsA [1, 1]).redSMin = paramsA.redSMin ∧
    (rescaleParams paramsA [1, 1]).redVMin = paramsA.redVMin ∧
    (rescaleParams paramsA [1, 1]).blueH1Low = paramsA.blueH1Low ∧
    (rescaleParams paramsA [1, 1]).blueH1High = paramsA.blueH1High ∧
    (rescaleParams paramsA [1, 1]).blueH2Low = paramsA.blueH2Low ∧
    (rescaleParams paramsA [1, 1]).blueH2High = paramsA.blueH2High ∧
    (rescaleParams paramsA [1, 1]).blueSMin = paramsA.blueSMin ∧
    (rescaleParams paramsA [1, 1]).blueVMin = paramsA.blueVMin ∧
    ((∀ sc ∈ [(1 : ℚ), 1], sc = 1) → rescaleParams paramsA [1, 1] = paramsA) :=
  rescale_truncates paramsA [1, 1] (by decide)

/-- ColorClassifier.is_red of calibrate.py: hue in either red sub-range
(both closed and inclusive, with no degenerate-range check) and
saturation/value above the floors. -/
def is_red (h s v : ℤ) (p : Params) : Bool :=
  let s_ok := decide (p.redSMin ≤ s)
  let v_ok := decide (p.redVMin ≤ v)
  let h_low_range := decide (p.redH1Low ≤ h ∧ h ≤ p.redH1High)
  let h_high_range := decide (p.redH2Low ≤ h ∧ h ≤ p.redH2High)
  (h_low_range || h_high_range) && s_ok && v_ok

/-- ColorClassifier.is_blue of calibrate.py: hue in the first blue
sub-range, or in the second one provided its bounds differ (the only
degenerate-range check in the classifier), and saturation/value above
the floors. -/
def is_blue (h s v : ℤ) (p : Params) : Bool :=
  let s_ok := decide (p.blueSMin ≤ s)
  let v_ok := decide (p.blueVMin ≤ v)
  let h_range1 := decide (p.blueH1Low ≤ h ∧ h ≤ p.blueH1High)
  let h_range2 := decide (p.blueH2Low ≠ p.blueH2High ∧
    p.blueH2Low ≤ h ∧ h ≤ p.blueH2High)
  (h_range1 || h_range2) && s_ok && v_ok

/-- Parameter record with a degenerate second red hue sub-range
[10, 10]. -/
def paramsRedDeg : Params :=
  ⟨1, 20, 100, 30, 10, 50, 0, 5, 10, 10, 100, 100, 100, 130, 0, 0, 100, 100⟩

/-- Parameter record whose blue sub-ranges are both degenerate:
[100, 100] and [0, 0]. -/
def paramsBlueDeg : Params :=
  ⟨1, 20, 100, 30, 10, 50, 0, 10, 160, 180, 100, 100, 100, 100, 0, 0, 50, 50⟩

/-- Claim C4 counterexample: a degenerate red sub-range [10, 10] still
matches hue 10 (it is not disabled), and a degenerate first blue
sub-range [100, 100] still matches hue 100 even though every blue
sub-range is degenerate, so the claimed uniform disabling of degenerate
sub-ranges fails for both colors. -/
theorem color_degenerate_cex :
    (is_red 10 200 200 paramsRedDeg = true ∧
      paramsRedDeg.redH2Low = paramsRedDeg.redH2High ∧
      ¬(paramsRedDeg.redH1Low ≤ 10 ∧ (10 : ℤ) ≤ paramsRedDeg.redH1High)) ∧
    (is_blue 100 200 200 paramsBlueDeg = true ∧
      paramsBlueDeg.blueH1Low = paramsBlueDeg.blueH1High ∧
      paramsBlueDeg.blueH2Low = paramsBlueDeg.blueH2High) := by
  decide

/-- Claim C4 (amended: only the second blue hue sub-range is disabled
when degenerate; the two red sub-ranges and the first blue sub-range are
closed inclusive ranges that still match their bound when the bounds
coincide).  A pixel matches red iff its hue lies in either red sub-range
and its saturation and value meet the red floors; it matches blue iff
its hue lies in the first blue sub-range, or in the second one when that
range is non-degenerate, and the blue floors are met; with a degenerate
second blue sub-range only the first blue sub-range is consulted. -/
theorem color_matching_characterization (h s v : ℤ) (p : Params) :
    (is_red h s v p = true ↔
      ((p.redH1Low ≤ h ∧ h ≤ p.redH1High) ∨
        (p.redH2Low ≤ h ∧ h ≤ p.redH2High)) ∧
        p.redSMin ≤ s ∧ p.redVMin ≤ v) ∧
    (is_blue h s v p = true ↔
      ((p.blueH1Low ≤ h ∧ h ≤ p.blueH1High) ∨
        (p.blueH2Low ≠ p.blueH2High ∧ p.blueH2Low ≤ h ∧ h ≤ p.blueH2High)) ∧
        p.blueSMin ≤ s ∧ p.blueVMin ≤ v) ∧
    (p.blueH2Low = p.blueH2High →
      (is_blue h s v p = true ↔
        (p.blueH1Low ≤ h ∧ h ≤ p.blueH1High) ∧
          p.blueSMin ≤ s ∧ p.blueVMin ≤ v)) := by
  refine ⟨?_, ?_, ?_⟩
  · simp [is_red, and_assoc]
  · simp [is_blue, and_assoc]
  · intro heq
    simp [is_blue, heq, and_assoc]

/-- Witness for color_matching_characterization at concrete pixels and
parameter records, the degenerate-blue hypothesis discharged. -/
theorem color_matching_characterization_witness :
    (is_red 10 200 200 paramsRedDeg = true ↔
      ((paramsRedDeg.redH1Low ≤ 10 ∧ (10 : ℤ) ≤ paramsRedDeg.redH1High) ∨
        (paramsRedDeg.redH2Low ≤ 10 ∧ (10 : ℤ) ≤ paramsRedDeg.redH2High)) ∧
        paramsRedDeg.redSMin ≤ 200 ∧ paramsRedDeg.redVMin ≤ 200) ∧
    (is_blue 100 200 200 paramsBlueDeg = true ↔
      ((paramsBlueDeg.blueH1Low ≤ 100 ∧ (100 : ℤ) ≤ paramsBlueDeg.blueH1High) ∨
        (paramsBlueDeg.blueH2Low ≠ paramsBlueDeg.blueH2High ∧
          paramsBlueDeg.blueH2Low ≤ 100 ∧ (100 : ℤ) ≤ paramsBlueDeg.blueH2High)) ∧
        paramsBlueDeg.blueSMin ≤ 200 ∧ paramsBlueDeg.blueVMin ≤ 200) ∧
    (is_blue 100 200 200 paramsBlueDeg = true ↔
      (paramsBlueDeg.blueH1Low ≤ 100 ∧ (100 : ℤ) ≤ paramsBlueDeg.blueH1High) ∧
        paramsBlueDeg.blueSMin ≤ 200 ∧ paramsBlueDeg.blueVMin ≤ 200) :=
  ⟨(color_matching_characterization 10 200 200 paramsRedDeg).1,
    (color_matching_characterization 100 200 200 paramsBlueDeg).2.1,
    (color_matching_characterization 100 200 200 paramsBlueDeg).2.2 (by decide)⟩

/-- The two tracked-best slots of objective_function relevant to the
interruption path: best_params (initially None) and best_score
(initially float(-inf), modelled as the bottom element). -/
structure Tracked (α : Type) where
  bestParams : Option α
  bestScore : WithBot ℚ
deriving DecidableEq

/-- Initial tracked state of the calibrator. -/
def trackedStart {α : Type} : Tracked α :=
  ⟨none, ⊥⟩

/-- The best-overall update performed by objective_function on every
completed evaluation: strictly larger scores replace the tracked pair. -/
def trackEval {α : Type} (st : Tracked α) (p : α) (q : ℚ) : Tracked α :=
  if st.bestScore < (q : WithBot ℚ) then ⟨some p, (q : WithBot ℚ)⟩ else st

/-- The tracked state after a run of completed evaluations, in order. -/
def runEvals {α : Type} (evals : List (α × ℚ)) : Tracked α :=
  evals.foldl (fun st e => trackEval st e.1 e.2) trackedStart

/-- The interruption path of optimize: when best_params is still None the
run fails with the distinct error raised by the source, otherwise it
falls back to the tracked best parameters and score, labelled with the
interrupted source tag. -/
def interruptedResult {α : Type} (st : Tracked α) :
    Except String (α × WithBot ℚ × String) :=
  match st.bestParams with
  | none => Except.error "No parameters found - interrupted too early"
  | some p => Except.ok (p, st.bestScore, "Interrupted - Tracked Best")

theorem trackEval_bestScore_le {α : Type} (st : Tracked α) (p : α) (q : ℚ) :
    st.bestScore ≤ (trackEval st p q).bestScore := by
  unfold trackEval
  split_ifs with hlt
  · exact le_of_lt hlt
  · exact le_refl _

theorem foldl_track_bestScore_le {α : Type} :
    ∀ (evals : List (α × ℚ)) (st : Tracked α),
      st.bestScore ≤
        (evals.foldl (fun st e => trackEval st e.1 e.2) st).bestScore := by
  intro evals
  induction evals with
  | nil => intro st; exact le_refl _
  | cons e rest ih =>
    intro st
    exact le_trans (trackEval_bestScore_le st e.1 e.2) (ih (trackEval st e.1 e.2))

theorem foldl_track_spec {α : Type} :
    ∀ (evals : List (α × ℚ)) (st : Tracked α),
      (∀ e ∈ evals, (e.2 : WithBot ℚ) ≤
        (evals.foldl (fun st e => trackEval st e.1 e.2) st).bestScore) ∧
      ((evals.foldl (fun st e => trackEval st e.1 e.2) st) = st ∨
        ∃ e ∈ evals, (evals.foldl (fun st e => trackEval st e.1 e.2) st) =
          ⟨some e.1, (e.2 : WithBot ℚ)⟩) := by
  intro evals
  induction evals with
  | nil => intro st; exact ⟨fun e he => absurd he (List.not_mem_nil e), Or.inl rfl⟩
  | cons e rest ih =>
    intro st
    obtain ⟨ihbound, ihform⟩ := ih (trackEval st e.1 e.2)
    constructor
    · intro e' he'
      rcases List.mem_cons.mp he' with rfl | hmem
      · have h1 : (e'.2 : WithBot ℚ) ≤ (trackEval st e'.1 e'.2).bestScore := by
          unfold trackEval
          split_ifs with hlt
          · exact le_refl _
          · exact le_of_not_lt hlt
        exact le_trans h1 (foldl_track_bestScore_le rest (trackEval st e'.1 e'.2))
      · exact ihbound e' hmem
    · rcases ihform with hform | ⟨e', he', hform⟩
      · rw [List.foldl_cons, hform]
        unfold trackEval
        split_ifs with hlt
        · exact Or.inr ⟨e, List.mem_cons_self e rest, rfl⟩
        · exact Or.inl rfl
      · exact Or.inr ⟨e', List.mem_cons_of_mem e he', hform⟩

/-- Claim C8: on interruption of the global search, the optimizer falls
back to the tracked best-overall pair when at least one evaluation has
completed (the returned pair is one of the evaluations and its score is
maximal among them), and fails with the distinct too-early error when no
evaluation has completed. -/
theorem interruption_fallback {α : Type} (evals : List (α × ℚ)) :
    (evals ≠ [] →
      ∃ (p : α) (q : ℚ), (p, q) ∈ evals ∧
        interruptedResult (runEvals evals) =
          Except.ok (p, (q : WithBot ℚ), "Interrupted - Tracked Best") ∧
        ∀ e ∈ evals, (e.2 : WithBot ℚ) ≤ (q : WithBot ℚ)) ∧
    (evals = [] →
      interruptedResult (runEvals evals) =
        Except.error "No parameters found - interrupted too early") := by
  constructor
  · intro hne
    obtain ⟨hbound, hform⟩ := foldl_track_spec evals (trackedStart (α := α))
    rcases hform with hform | ⟨e, he, hform⟩
    · exfalso
      obtain ⟨e, he⟩ := List.exists_mem_of_ne_nil evals hne
      have hb := hbound e he
      rw [hform] at hb
      exact absurd (le_bot_iff.mp hb) (WithBot.coe_ne_bot)
    · refine ⟨e.1, e.2, by simpa using he, ?_, ?_⟩
      · unfold runEvals
        rw [hform]
        rfl
      · intro e' he'
        have hb := hbound e' he'
        rw [hform] at hb
        exact hb
  · rintro rfl
    rfl

/-- Witness for interruption_fallback: two completed evaluations fall
back to the first (maximal) one; the empty run fails with the distinct
error. -/
theorem interruption_fallback_witness :
    (∃ (p : ℤ) (q : ℚ), (p, q) ∈ [((0 : ℤ), (5 : ℚ)), (1, 3)] ∧
      interruptedResult (runEvals [((0 : ℤ), (5 : ℚ)), (1, 3)]) =
        Except.ok (p, (q : WithBot ℚ), "Interrupted - Tracked Best") ∧
      ∀ e ∈ [((0 : ℤ), (5 : ℚ)), (1, 3)],
        (e.2 : WithBot ℚ) ≤ (q : WithBot ℚ)) ∧
    interruptedResult (runEvals ([] : List (ℤ × ℚ))) =
      Except.error "No parameters found - interrupted too early" :=
  ⟨(interruption_fallback [((0 : ℤ), (5 : ℚ)), (1, 3)]).1 (by decide),
    (interruption_fallback ([] : List (ℤ × ℚ))).2 rfl⟩

end PokCalib
